import Mathlib

/-!
Verification of the map-widget core of the portfolio repository.

The verified code lives in src/components/ProjectMaps.tsx:
a Mercator-style coordinate projector, SVG path / viewbox renderers,
a keyword-based project-to-location matcher over a static table, and
the marker / per-region reductions derived from it.

Modelling conventions:
- the projection works with transcendental functions, so it is embedded
  over the real numbers;
- the path / viewbox renderers, the matcher and the reductions only use
  field arithmetic, string operations and list traversals, so they are
  embedded executably (rational coordinates, Lean strings and lists),
  which keeps all their properties decidable on concrete inputs.
-/

namespace ProjectMaps

/-- Canvas width constant GLOBAL_WIDTH = 900 from ProjectMaps.tsx. -/
def GLOBAL_WIDTH : ℝ := 900

/-- Canvas height constant GLOBAL_HEIGHT = 450 from ProjectMaps.tsx. -/
def GLOBAL_HEIGHT : ℝ := 450

/-- MERCATOR_SCALE = GLOBAL_WIDTH / (2 * Math.PI) from ProjectMaps.tsx. -/
noncomputable def MERCATOR_SCALE : ℝ := GLOBAL_WIDTH / (2 * Real.pi)

/-- Output of the projector: the ProjectedPoint record of ProjectMaps.tsx. -/
structure ProjectedPoint where
  x : ℝ
  y : ℝ

/-- clampLatitude from ProjectMaps.tsx: Math.max(Math.min(lat, 85), -85). -/
def clampLatitude (lat : ℝ) : ℝ := max (min lat 85) (-85)

/-- projectPoint from ProjectMaps.tsx: clamp the latitude, then apply the
Mercator-style transform on the fixed 900 x 450 canvas. -/
noncomputable def projectPoint (lon lat : ℝ) : ProjectedPoint :=
  let limitedLat := clampLatitude lat
  let x := (lon + 180) / 360 * GLOBAL_WIDTH
  let latRad := limitedLat * Real.pi / 180
  let y := GLOBAL_HEIGHT / 2 - MERCATOR_SCALE * Real.log (Real.tan (Real.pi / 4 + latRad / 2))
  ⟨x, y⟩

theorem clampLatitude_eq_self {lat : ℝ} (h1 : -85 ≤ lat) (h2 : lat ≤ 85) :
    clampLatitude lat = lat := by
  unfold clampLatitude
  rw [min_eq_left h2, max_eq_left h1]

theorem clampLatitude_of_ge {lat : ℝ} (h : 85 ≤ lat) : clampLatitude lat = 85 := by
  unfold clampLatitude
  rw [min_eq_right h, max_eq_left (by norm_num : (-85 : ℝ) ≤ 85)]

theorem clampLatitude_of_le {lat : ℝ} (h : lat ≤ -85) : clampLatitude lat = -85 := by
  unfold clampLatitude
  rw [min_eq_left (h.trans (by norm_num)), max_eq_right h]

theorem projectPoint_congr_clamp (lon : ℝ) {lat lat' : ℝ}
    (h : clampLatitude lat = clampLatitude lat') :
    projectPoint lon lat = projectPoint lon lat' := by
  simp only [projectPoint, h]

/-- C3: projectPoint clamps latitude to [-85, 85] before the Mercator
transform: for latitudes above 85 the output equals the output at 85, for
latitudes below -85 it equals the output at -85, and in particular the
projection at latitude 86 equals the projection at latitude 85. -/
theorem projectPoint_clamps_latitude :
    (∀ lon lat : ℝ, 85 < lat → projectPoint lon lat = projectPoint lon 85) ∧
    (∀ lon lat : ℝ, lat < -85 → projectPoint lon lat = projectPoint lon (-85)) ∧
    (∀ lon : ℝ, projectPoint lon 86 = projectPoint lon 85) := by
  have hhi : ∀ lon lat : ℝ, 85 < lat → projectPoint lon lat = projectPoint lon 85 := by
    intro lon lat h
    apply projectPoint_congr_clamp
    rw [clampLatitude_of_ge h.le, clampLatitude_of_ge le_rfl]
  refine ⟨hhi, ?_, ?_⟩
  · intro lon lat h
    apply projectPoint_congr_clamp
    rw [clampLatitude_of_le h.le, clampLatitude_of_le le_rfl]
  · intro lon
    exact hhi lon 86 (by norm_num)

/-- Witness for C3 at the concrete latitude 86 of the spec. -/
theorem projectPoint_clamps_latitude_witness :
    (85 : ℝ) < 86 ∧ projectPoint 0 86 = projectPoint 0 85 :=
  ⟨by norm_num, projectPoint_clamps_latitude.1 0 86 (by norm_num)⟩

/-- C8: at latitude 0 the projection maps the longitude extremes to the
canvas edges: x = 0 at longitude -180 and x = GLOBAL_WIDTH at longitude 180. -/
theorem projectPoint_lon_extremes :
    (projectPoint (-180) 0).x = 0 ∧ (projectPoint 180 0).x = GLOBAL_WIDTH := by
  constructor <;> · simp only [projectPoint, GLOBAL_WIDTH]; norm_num

/-- C9: projectPoint is a pure, deterministic function of its longitude and
latitude arguments and the fixed canvas constants: equal inputs always give
equal ProjectedPoint outputs, with no hidden state affecting the mapping. -/
theorem projectPoint_deterministic (lon1 lat1 lon2 lat2 : ℝ)
    (hlon : lon1 = lon2) (hlat : lat1 = lat2) :
    projectPoint lon1 lat1 = projectPoint lon2 lat2 := by
  rw [hlon, hlat]

/-- Witness for C9 at concrete equal inputs. -/
theorem projectPoint_deterministic_witness :
    ((2 : ℝ) = 2 ∧ (10 : ℝ) = 10) ∧ projectPoint 2 10 = projectPoint 2 10 :=
  ⟨⟨rfl, rfl⟩, projectPoint_deterministic 2 10 2 10 rfl rfl⟩

/-- C6: for a fixed longitude, the projected y coordinate strictly decreases
as the latitude increases over [-85, 85] (north is up). -/
theorem projectPoint_y_strictAnti (lon lat1 lat2 : ℝ)
    (h1 : -85 ≤ lat1) (h12 : lat1 < lat2) (h2 : lat2 ≤ 85) :
    (projectPoint lon lat2).y < (projectPoint lon lat1).y := by
  have hc1 : clampLatitude lat1 = lat1 := clampLatitude_eq_self h1 (by linarith)
  have hc2 : clampLatitude lat2 = lat2 := clampLatitude_eq_self (by linarith) h2
  simp only [projectPoint, hc1, hc2]
  have hπ : (0 : ℝ) < Real.pi := Real.pi_pos
  have hm1 : -85 * Real.pi ≤ lat1 * Real.pi := mul_le_mul_of_nonneg_right h1 hπ.le
  have hm2 : lat2 * Real.pi ≤ 85 * Real.pi := mul_le_mul_of_nonneg_right h2 hπ.le
  have hm12 : lat1 * Real.pi < lat2 * Real.pi := mul_lt_mul_of_pos_right h12 hπ
  have ha : 0 < Real.pi / 4 + lat1 * Real.pi / 180 / 2 := by linarith
  have hb : Real.pi / 4 + lat2 * Real.pi / 180 / 2 < Real.pi / 2 := by linarith
  have hab : Real.pi / 4 + lat1 * Real.pi / 180 / 2 <
      Real.pi / 4 + lat2 * Real.pi / 180 / 2 := by linarith
  have hta : 0 < Real.tan (Real.pi / 4 + lat1 * Real.pi / 180 / 2) :=
    Real.tan_pos_of_pos_of_lt_pi_div_two ha (lt_trans hab hb)
  have htab : Real.tan (Real.pi / 4 + lat1 * Real.pi / 180 / 2) <
      Real.tan (Real.pi / 4 + lat2 * Real.pi / 180 / 2) :=
    Real.tan_lt_tan_of_lt_of_lt_pi_div_two (by linarith) hb hab
  have hlog := Real.log_lt_log hta htab
  have hs : 0 < MERCATOR_SCALE := by
    unfold MERCATOR_SCALE GLOBAL_WIDTH
    positivity
  have := mul_lt_mul_of_pos_left hlog hs
  linarith

/-- Witness for C6 at latitudes 0 and 10. -/
theorem projectPoint_y_strictAnti_witness :
    ((-85 : ℝ) ≤ 0 ∧ (0 : ℝ) < 10 ∧ (10 : ℝ) ≤ 85) ∧
      (projectPoint 0 10).y < (projectPoint 0 0).y :=
  ⟨by norm_num,
    projectPoint_y_strictAnti 0 0 10 (by norm_num) (by norm_num) (by norm_num)⟩

/-- Planar point in canvas pixel space. The source stores these in the same
ProjectedPoint record; the renderer functions below only use field arithmetic
and comparisons on the coordinates, so they are modelled exactly over ℚ to
stay executable. -/
structure PlanarPoint where
  x : ℚ
  y : ℚ
deriving DecidableEq

/-- Model of the 2-decimal formatter Number.toFixed(2) used by the source:
the nearest multiple of 1/100 (ties rounded up), rendered with a sign, the
integer part, a decimal point and exactly two fractional digits. -/
def toFixed2 (q : ℚ) : String :=
  let n : ℤ := ⌊q * 100 + 1 / 2⌋
  let sign := if n < 0 then "-" else ""
  let m := n.natAbs
  sign ++ toString (m / 100) ++ "." ++
    String.mk [Nat.digitChar (m / 10 % 10), Nat.digitChar (m % 10)]

/-- Model of the JavaScript Array.join separator concatenation. -/
def joinSep (sep : String) : List String → String
  | [] => ""
  | [s] => s
  | s :: t :: rest => s ++ sep ++ joinSep sep (t :: rest)

/-- pointsToPath from ProjectMaps.tsx: empty input gives the empty string,
otherwise each indexed point becomes an M (index 0) or L command with both
coordinates formatted to two decimals, the commands are joined with spaces
and a final Z is appended. -/
def pointsToPath : List PlanarPoint → String
  | [] => ""
  | p :: rest =>
    joinSep " "
      (((p :: rest).enum).map fun ip =>
        (if ip.1 = 0 then "M" else "L") ++ toFixed2 ip.2.x ++ "," ++ toFixed2 ip.2.y)
      ++ " Z"

/-- Viewbox descriptor. The source interpolates these four numbers into the
string minX minY width height; the empty-input default string 0 0 900 450
corresponds to the record with the canvas constants 900 and 450. -/
structure ViewBox where
  minX : ℚ
  minY : ℚ
  width : ℚ
  height : ℚ
deriving DecidableEq

/-- pointsToViewBox from ProjectMaps.tsx: the default canvas viewbox for an
empty input, otherwise the bounding box of the points (Math.min / Math.max
over the coordinate spreads) expanded by the padding, with width and height
floored at 1. The default padding argument in the source is 32. -/
def pointsToViewBox : List PlanarPoint → ℚ → ViewBox
  | [], _ => ⟨0, 0, 900, 450⟩
  | p :: rest, padding =>
    let minX := rest.foldl (fun m r => min m r.x) p.x - padding
    let maxX := rest.foldl (fun m r => max m r.x) p.x + padding
    let minY := rest.foldl (fun m r => min m r.y) p.y - padding
    let maxY := rest.foldl (fun m r => max m r.y) p.y + padding
    ⟨minX, minY, max (maxX - minX) 1, max (maxY - minY) 1⟩

/-- The point membership property the viewbox claims are about. -/
abbrev inBounds (vb : ViewBox) (q : PlanarPoint) : Prop :=
  vb.minX ≤ q.x ∧ q.x ≤ vb.minX + vb.width ∧ vb.minY ≤ q.y ∧ q.y ≤ vb.minY + vb.height

/-- Project record from KeyProjects.tsx; the optional free-text fields other
than location are irrelevant to the matcher but kept for fidelity. -/
structure Project where
  name : String
  value : String
  role : String
  company : String
  client : Option String
  location : Option String
  achievement : Option String
  contribution : Option String
  scope : Option String
deriving DecidableEq

/-- The three region identifiers of ProjectMaps.tsx. -/
inductive RegionId
  | usa
  | europe
  | southAmerica
deriving DecidableEq

/-- Geographic coordinate record LonLat of ProjectMaps.tsx, with the decimal
literals of the table represented exactly as rationals. -/
structure LonLat where
  lon : ℚ
  lat : ℚ
deriving DecidableEq

/-- ProjectLocationDefinition of ProjectMaps.tsx: keyword list, coordinate,
region and display label. -/
structure ProjectLocationDefinition where
  keywords : List String
  coords : LonLat
  regionId : RegionId
  label : String
deriving DecidableEq

/-- The static PROJECT_LOCATIONS table of ProjectMaps.tsx, in declaration
order. -/
def PROJECT_LOCATIONS : List ProjectLocationDefinition :=
  [ ⟨["susquehanna"], ⟨-76.992, 39.533⟩, RegionId.usa, "Washington, DC"⟩,
    ⟨["sr-400", "express lanes"], ⟨-84.36, 33.97⟩, RegionId.usa, "Atlanta, GA"⟩,
    ⟨["calcasieu"], ⟨-93.217, 30.226⟩, RegionId.usa, "Lake Charles, LA"⟩,
    ⟨["grand parkway"], ⟨-95.369, 29.76⟩, RegionId.usa, "Houston, TX"⟩,
    ⟨["i-69"], ⟨-86.526, 39.165⟩, RegionId.usa, "Bloomington, IN"⟩,
    ⟨["ayacucho", "medell"], ⟨-75.563, 6.244⟩, RegionId.southAmerica, "Medellín"⟩,
    ⟨["zizurkil", "andoain"], ⟨-2.02, 43.23⟩, RegionId.europe, "Zizurkil · Andoain"⟩,
    ⟨["venta de baños"], ⟨-4.5, 41.99⟩, RegionId.europe, "Venta de Baños"⟩,
    ⟨["andoain to urnieta", "urnieta"], ⟨-2.01, 43.25⟩, RegionId.europe, "Andoain · Urnieta"⟩,
    ⟨["cabezón de pisuerga", "valvení"], ⟨-4.63, 41.78⟩, RegionId.europe, "Cabezón de Pisuerga"⟩,
    ⟨["legutiano", "escoriatza"], ⟨-2.52, 43.04⟩, RegionId.europe, "Legutiano · Escoriatza"⟩,
    ⟨["gernika"], ⟨-2.68, 43.31⟩, RegionId.europe, "Gernika"⟩,
    ⟨["vilademuls", "cornellà"], ⟨2.82, 42.12⟩, RegionId.europe, "Vilademuls"⟩,
    ⟨["bi-625"], ⟨-2.87, 43.23⟩, RegionId.europe, "BI-625 Corridor"⟩,
    ⟨["r-3", "m-50", "madrid"], ⟨-3.52, 40.35⟩, RegionId.europe, "Madrid"⟩,
    ⟨["ap1", "bergara"], ⟨-2.41, 43.18⟩, RegionId.europe, "Eibar · Bergara"⟩,
    ⟨["urumea", "astigarraga"], ⟨-1.95, 43.29⟩, RegionId.europe, "Martutene · Astigarraga"⟩ ]

/-- Model of JavaScript String.includes: the needle occurs as a contiguous
character run inside the haystack. Stated on character lists so that it is
structurally recursive. -/
def includesSub (haystack needle : List Char) : Bool :=
  match haystack with
  | [] => needle.isEmpty
  | _ :: t => needle.isPrefixOf haystack || includesSub t needle

/-- The lowercase search text of matchProjectToLocation: the project name,
a space, and the optional location field, lowercased (character-wise ASCII
lowering, which agrees with toLowerCase on the keywords of the table). -/
def searchHaystack (project : Project) : List Char :=
  (project.name ++ " " ++ project.location.getD "").data.map Char.toLower

/-- The per-entry test of matchProjectToLocation: some keyword of the entry
occurs inside the search text. -/
def entryMatchesProject (project : Project) (entry : ProjectLocationDefinition) : Bool :=
  entry.keywords.any fun keyword => includesSub (searchHaystack project) keyword.data

/-- matchProjectToLocation from ProjectMaps.tsx: the first table entry, in
declaration order, some keyword of which occurs in the search text. -/
def matchProjectToLocation (project : Project) : Option ProjectLocationDefinition :=
  PROJECT_LOCATIONS.find? (entryMatchesProject project)

/-- Marker record derived per project by the projectMarkers reduction. -/
structure ProjectMarker where
  project : Project
  regionId : RegionId
  coords : LonLat
  point : ProjectedPoint
  label : String

/-- The reduce callback of the projectMarkers reduction of ProjectMaps.tsx:
skip a project with no location match, otherwise append a marker holding the
matched region, coordinate, projected point and label. -/
noncomputable def markerStep (accumulator : List ProjectMarker) (project : Project) :
    List ProjectMarker :=
  match matchProjectToLocation project with
  | none => accumulator
  | some m =>
    accumulator ++
      [⟨project, m.regionId, m.coords,
        projectPoint (m.coords.lon : ℝ) (m.coords.lat : ℝ), m.label⟩]

/-- The projectMarkers reduction of ProjectMaps.tsx: fold the reduce callback
over the project list, starting from the empty marker list. -/
noncomputable def projectMarkers (projects : List Project) : List ProjectMarker :=
  projects.foldl markerStep []

/-- The reduce callback of the projectsByRegion reduction of ProjectMaps.tsx:
append the marker to the list kept under its region key. -/
noncomputable def regionStep (accumulator : RegionId → List ProjectMarker)
    (marker : ProjectMarker) : RegionId → List ProjectMarker :=
  Function.update accumulator marker.regionId (accumulator marker.regionId ++ [marker])

/-- The projectsByRegion reduction of ProjectMaps.tsx: starting from empty
per-region lists, append each marker to the list of its region. -/
noncomputable def projectsByRegion (markers : List ProjectMarker) :
    RegionId → List ProjectMarker :=
  markers.foldl regionStep (fun _ => [])

/-- The reduce callback of the regionCounts reduction of ProjectMaps.tsx:
increment the count kept under the region key of the marker. -/
noncomputable def countStep (accumulator : RegionId → ℕ) (marker : ProjectMarker) :
    RegionId → ℕ :=
  Function.update accumulator marker.regionId (accumulator marker.regionId + 1)

/-- The regionCounts reduction of ProjectMaps.tsx: starting from zero
per-region counts, increment the count of the region of each marker. -/
noncomputable def regionCounts (markers : List ProjectMarker) : RegionId → ℕ :=
  markers.foldl countStep (fun _ => 0)

theorem foldl_min_le_init {α : Type} (f : α → ℚ) :
    ∀ (l : List α) (a : ℚ), l.foldl (fun m r => min m (f r)) a ≤ a := by
  intro l
  induction l with
  | nil => intro a; exact le_rfl
  | cons b t ih => intro a; exact (ih (min a (f b))).trans (min_le_left _ _)

theorem foldl_min_le_mem {α : Type} (f : α → ℚ) :
    ∀ (l : List α) (a : ℚ) (q : α), q ∈ l →
      l.foldl (fun m r => min m (f r)) a ≤ f q := by
  intro l
  induction l with
  | nil => intro a q hq; exact absurd hq (List.not_mem_nil q)
  | cons b t ih =>
    intro a q hq
    rcases List.mem_cons.mp hq with h | h
    · subst h
      exact (foldl_min_le_init f t (min a (f q))).trans (min_le_right a (f q))
    · exact ih (min a (f b)) q h

theorem foldl_min_attained {α : Type} (f : α → ℚ) :
    ∀ (l : List α) (a : ℚ),
      l.foldl (fun m r => min m (f r)) a = a ∨
        ∃ q ∈ l, f q = l.foldl (fun m r => min m (f r)) a := by
  intro l
  induction l with
  | nil => intro a; exact Or.inl rfl
  | cons b t ih =>
    intro a
    rcases ih (min a (f b)) with heq | ⟨q, hq, hfq⟩
    · rcases min_choice a (f b) with h | h
      · exact Or.inl (by rw [List.foldl_cons, heq, h])
      · exact Or.inr ⟨b, List.mem_cons_self b t, by rw [List.foldl_cons, heq, h]⟩
    · exact Or.inr ⟨q, List.mem_cons_of_mem b hq, by rw [List.foldl_cons]; exact hfq⟩

theorem foldl_max_init_le {α : Type} (f : α → ℚ) :
    ∀ (l : List α) (a : ℚ), a ≤ l.foldl (fun m r => max m (f r)) a := by
  intro l
  induction l with
  | nil => intro a; exact le_rfl
  | cons b t ih => intro a; exact (le_max_left a (f b)).trans (ih (max a (f b)))

theorem foldl_max_mem_le {α : Type} (f : α → ℚ) :
    ∀ (l : List α) (a : ℚ) (q : α), q ∈ l →
      f q ≤ l.foldl (fun m r => max m (f r)) a := by
  intro l
  induction l with
  | nil => intro a q hq; exact absurd hq (List.not_mem_nil q)
  | cons b t ih =>
    intro a q hq
    rcases List.mem_cons.mp hq with h | h
    · subst h
      exact (le_max_right a (f q)).trans (foldl_max_init_le f t (max a (f q)))
    · exact ih (max a (f b)) q h

theorem foldl_max_attained {α : Type} (f : α → ℚ) :
    ∀ (l : List α) (a : ℚ),
      l.foldl (fun m r => max m (f r)) a = a ∨
        ∃ q ∈ l, f q = l.foldl (fun m r => max m (f r)) a := by
  intro l
  induction l with
  | nil => intro a; exact Or.inl rfl
  | cons b t ih =>
    intro a
    rcases ih (max a (f b)) with heq | ⟨q, hq, hfq⟩
    · rcases max_choice a (f b) with h | h
      · exact Or.inl (by rw [List.foldl_cons, heq, h])
      · exact Or.inr ⟨b, List.mem_cons_self b t, by rw [List.foldl_cons, heq, h]⟩
    · exact Or.inr ⟨q, List.mem_cons_of_mem b hq, by rw [List.foldl_cons]; exact hfq⟩

theorem pointsToViewBox_cons (p : PlanarPoint) (rest : List PlanarPoint) (padding : ℚ) :
    pointsToViewBox (p :: rest) padding =
      ⟨rest.foldl (fun m r => min m r.x) p.x - padding,
        rest.foldl (fun m r => min m r.y) p.y - padding,
        max ((rest.foldl (fun m r => max m r.x) p.x + padding)
          - (rest.foldl (fun m r => min m r.x) p.x - padding)) 1,
        max ((rest.foldl (fun m r => max m r.y) p.y + padding)
          - (rest.foldl (fun m r => min m r.y) p.y - padding)) 1⟩ := rfl

/-- C5: pointsToViewBox returns the full-canvas default viewbox (the record
behind the string 0 0 900 450) for an empty sequence; for a non-empty
sequence it returns the axis-aligned bounding box of the points expanded by
the padding on each side, with width and height floored at 1. -/
theorem pointsToViewBox_spec :
    (∀ padding : ℚ, pointsToViewBox [] padding = ⟨0, 0, 900, 450⟩) ∧
    (∀ (p : PlanarPoint) (rest : List PlanarPoint) (padding : ℚ),
      ∃ xlo xhi ylo yhi : ℚ,
        (∀ q ∈ p :: rest, xlo ≤ q.x ∧ q.x ≤ xhi ∧ ylo ≤ q.y ∧ q.y ≤ yhi) ∧
        (∃ q ∈ p :: rest, q.x = xlo) ∧ (∃ q ∈ p :: rest, q.x = xhi) ∧
        (∃ q ∈ p :: rest, q.y = ylo) ∧ (∃ q ∈ p :: rest, q.y = yhi) ∧
        pointsToViewBox (p :: rest) padding =
          ⟨xlo - padding, ylo - padding,
            max (xhi - xlo + 2 * padding) 1, max (yhi - ylo + 2 * padding) 1⟩) := by
  constructor
  · intro padding; rfl
  · intro p rest padding
    refine ⟨rest.foldl (fun m r => min m r.x) p.x,
      rest.foldl (fun m r => max m r.x) p.x,
      rest.foldl (fun m r => min m r.y) p.y,
      rest.foldl (fun m r => max m r.y) p.y, ?_, ?_, ?_, ?_, ?_, ?_⟩
    · intro q hq
      rcases List.mem_cons.mp hq with h | h
      · subst h
        exact ⟨foldl_min_le_init (fun r : PlanarPoint => r.x) rest q.x,
          foldl_max_init_le (fun r : PlanarPoint => r.x) rest q.x,
          foldl_min_le_init (fun r : PlanarPoint => r.y) rest q.y,
          foldl_max_init_le (fun r : PlanarPoint => r.y) rest q.y⟩
      · exact ⟨foldl_min_le_mem (fun r : PlanarPoint => r.x) rest p.x q h,
          foldl_max_mem_le (fun r : PlanarPoint => r.x) rest p.x q h,
          foldl_min_le_mem (fun r : PlanarPoint => r.y) rest p.y q h,
          foldl_max_mem_le (fun r : PlanarPoint => r.y) rest p.y q h⟩
    · rcases foldl_min_attained (fun r : PlanarPoint => r.x) rest p.x with h | ⟨q, hq, hfq⟩
      · exact ⟨p, List.mem_cons_self p rest, h.symm⟩
      · exact ⟨q, List.mem_cons_of_mem p hq, hfq⟩
    · rcases foldl_max_attained (fun r : PlanarPoint => r.x) rest p.x with h | ⟨q, hq, hfq⟩
      · exact ⟨p, List.mem_cons_self p rest, h.symm⟩
      · exact ⟨q, List.mem_cons_of_mem p hq, hfq⟩
    · rcases foldl_min_attained (fun r : PlanarPoint => r.y) rest p.y with h | ⟨q, hq, hfq⟩
      · exact ⟨p, List.mem_cons_self p rest, h.symm⟩
      · exact ⟨q, List.mem_cons_of_mem p hq, hfq⟩
    · rcases foldl_max_attained (fun r : PlanarPoint => r.y) rest p.y with h | ⟨q, hq, hfq⟩
      · exact ⟨p, List.mem_cons_self p rest, h.symm⟩
      · exact ⟨q, List.mem_cons_of_mem p hq, hfq⟩
    · rw [pointsToViewBox_cons]
      have hw : ∀ lo hi pad : ℚ, (hi + pad) - (lo - pad) = hi - lo + 2 * pad :=
        fun lo hi pad => by ring
      rw [hw, hw]

/-- Witness for C5 at the empty sequence with the default padding 32. -/
theorem pointsToViewBox_spec_witness :
    pointsToViewBox [] 32 = ⟨0, 0, 900, 450⟩ :=
  pointsToViewBox_spec.1 32

/-- Counterexample to C2 as stated: for the padding value -5 the viewbox
returned for the points (0,0) and (10,0) does not contain them. -/
theorem pointsToViewBox_inBounds_counterexample :
    ¬ ∀ q ∈ ([⟨0, 0⟩, ⟨10, 0⟩] : List PlanarPoint),
        inBounds (pointsToViewBox [⟨0, 0⟩, ⟨10, 0⟩] (-5)) q := by
  intro h
  have h0 := h ⟨0, 0⟩ (List.mem_cons_self _ _)
  have hvb : pointsToViewBox [⟨0, 0⟩, ⟨10, 0⟩] (-5) = ⟨5, 5, 1, 1⟩ := by
    norm_num [pointsToViewBox]
  rw [hvb] at h0
  rcases h0 with ⟨h1, -⟩
  norm_num at h1

/-- C2 amended: for every non-empty point sequence and every nonnegative
padding, the x coordinate of each point lies between min-x and min-x plus
width of the returned viewbox, and the y coordinate of each point lies
between min-y and min-y plus height. -/
theorem pointsToViewBox_inBounds (p : PlanarPoint) (rest : List PlanarPoint)
    (padding : ℚ) (hpad : 0 ≤ padding) :
    ∀ q ∈ p :: rest, inBounds (pointsToViewBox (p :: rest) padding) q := by
  intro q hq
  have hxlo : rest.foldl (fun m r => min m r.x) p.x ≤ q.x := by
    rcases List.mem_cons.mp hq with h | h
    · subst h; exact foldl_min_le_init (fun r : PlanarPoint => r.x) rest q.x
    · exact foldl_min_le_mem (fun r : PlanarPoint => r.x) rest p.x q h
  have hxhi : q.x ≤ rest.foldl (fun m r => max m r.x) p.x := by
    rcases List.mem_cons.mp hq with h | h
    · subst h; exact foldl_max_init_le (fun r : PlanarPoint => r.x) rest q.x
    · exact foldl_max_mem_le (fun r : PlanarPoint => r.x) rest p.x q h
  have hylo : rest.foldl (fun m r => min m r.y) p.y ≤ q.y := by
    rcases List.mem_cons.mp hq with h | h
    · subst h; exact foldl_min_le_init (fun r : PlanarPoint => r.y) rest q.y
    · exact foldl_min_le_mem (fun r : PlanarPoint => r.y) rest p.y q h
  have hyhi : q.y ≤ rest.foldl (fun m r => max m r.y) p.y := by
    rcases List.mem_cons.mp hq with h | h
    · subst h; exact foldl_max_init_le (fun r : PlanarPoint => r.y) rest q.y
    · exact foldl_max_mem_le (fun r : PlanarPoint => r.y) rest p.y q h
  have hwx := le_max_left
    ((rest.foldl (fun m r => max m r.x) p.x + padding)
      - (rest.foldl (fun m r => min m r.x) p.x - padding)) 1
  have hwy := le_max_left
    ((rest.foldl (fun m r => max m r.y) p.y + padding)
      - (rest.foldl (fun m r => min m r.y) p.y - padding)) 1
  rw [pointsToViewBox_cons]
  refine ⟨?_, ?_, ?_, ?_⟩ <;> dsimp only <;> linarith

/-- Witness for C2 (amended) at a concrete point list and padding 2. -/
theorem pointsToViewBox_inBounds_witness :
    (0 : ℚ) ≤ 2 ∧
      inBounds (pointsToViewBox [⟨0, 0⟩, ⟨10, 20⟩] 2) ⟨0, 0⟩ :=
  ⟨by norm_num,
    pointsToViewBox_inBounds ⟨0, 0⟩ [⟨10, 20⟩] 2 (by norm_num) ⟨0, 0⟩
      (List.mem_cons_self _ _)⟩

theorem enumFrom_map_line (l : List PlanarPoint) :
    ∀ n : ℕ, n ≠ 0 →
      (l.enumFrom n).map
          (fun ip => (if ip.1 = 0 then "M" else "L")
            ++ toFixed2 ip.2.x ++ "," ++ toFixed2 ip.2.y)
        = l.map (fun r => "L" ++ toFixed2 r.x ++ "," ++ toFixed2 r.y) := by
  induction l with
  | nil => intro n _; rfl
  | cons b t ih =>
    intro n hn
    rw [List.enumFrom_cons, List.map_cons, List.map_cons, ih (n + 1) (Nat.succ_ne_zero n)]
    simp [hn]

theorem joinSep_append_Z :
    ∀ (l : List String) (a : String),
      joinSep " " (a :: l) ++ " Z"
        = a ++ l.foldr (fun s acc => " " ++ s ++ acc) " Z" := by
  intro l
  induction l with
  | nil => intro a; rfl
  | cons b t ih =>
    intro a
    calc joinSep " " (a :: b :: t) ++ " Z"
        = (a ++ " " ++ joinSep " " (b :: t)) ++ " Z" := rfl
      _ = a ++ (" " ++ (joinSep " " (b :: t) ++ " Z")) := by
          simp only [String.append_assoc]
      _ = a ++ (" " ++ (b ++ t.foldr (fun s acc => " " ++ s ++ acc) " Z")) := by
          rw [ih b]
      _ = a ++ (b :: t).foldr (fun s acc => " " ++ s ++ acc) " Z" := by
          simp only [List.foldr_cons, String.append_assoc]

/-- C4: pointsToPath returns the empty string on the empty sequence; on a
non-empty sequence it returns a move-to command for the first point, a
line-to command for each subsequent point and a closing Z, every coordinate
formatted with fixed 2-decimal precision; in particular a singleton yields
the move-to command directly followed by the Z. -/
theorem pointsToPath_spec :
    pointsToPath [] = "" ∧
    (∀ p : PlanarPoint,
      pointsToPath [p] = "M" ++ toFixed2 p.x ++ "," ++ toFixed2 p.y ++ " Z") ∧
    (∀ (p : PlanarPoint) (rest : List PlanarPoint),
      pointsToPath (p :: rest) =
        "M" ++ toFixed2 p.x ++ "," ++ toFixed2 p.y ++
          rest.foldr
            (fun r acc => " L" ++ toFixed2 r.x ++ "," ++ toFixed2 r.y ++ acc) " Z") ∧
    (∀ q : ℚ, ∃ intPart fracPart : String,
      toFixed2 q = intPart ++ "." ++ fracPart ∧ fracPart.length = 2) := by
  have hfun : (fun (r : PlanarPoint) (acc : String) =>
        " " ++ ("L" ++ toFixed2 r.x ++ "," ++ toFixed2 r.y) ++ acc)
      = (fun (r : PlanarPoint) (acc : String) =>
        " L" ++ toFixed2 r.x ++ "," ++ toFixed2 r.y ++ acc) := by
    funext r acc
    have hL : (" " ++ "L" : String) = " L" := by decide
    simp only [String.append_assoc]
    rw [← String.append_assoc " " "L", hL]
  have hcons : ∀ (p : PlanarPoint) (rest : List PlanarPoint),
      pointsToPath (p :: rest) =
        "M" ++ toFixed2 p.x ++ "," ++ toFixed2 p.y ++
          rest.foldr
            (fun r acc => " L" ++ toFixed2 r.x ++ "," ++ toFixed2 r.y ++ acc) " Z" := by
    intro p rest
    have h1 : ((p :: rest).enum).map
          (fun ip => (if ip.1 = 0 then "M" else "L")
            ++ toFixed2 ip.2.x ++ "," ++ toFixed2 ip.2.y)
        = ("M" ++ toFixed2 p.x ++ "," ++ toFixed2 p.y)
            :: rest.map (fun r => "L" ++ toFixed2 r.x ++ "," ++ toFixed2 r.y) := by
      rw [List.enum_cons, List.map_cons, enumFrom_map_line rest 1 one_ne_zero]
      rfl
    calc pointsToPath (p :: rest)
        = joinSep " " (((p :: rest).enum).map
            (fun ip => (if ip.1 = 0 then "M" else "L")
              ++ toFixed2 ip.2.x ++ "," ++ toFixed2 ip.2.y)) ++ " Z" := rfl
      _ = joinSep " " (("M" ++ toFixed2 p.x ++ "," ++ toFixed2 p.y)
            :: rest.map (fun r => "L" ++ toFixed2 r.x ++ "," ++ toFixed2 r.y))
            ++ " Z" := by rw [h1]
      _ = "M" ++ toFixed2 p.x ++ "," ++ toFixed2 p.y ++
            (rest.map (fun r => "L" ++ toFixed2 r.x ++ "," ++ toFixed2 r.y)).foldr
              (fun s acc => " " ++ s ++ acc) " Z" :=
          joinSep_append_Z _ _
      _ = "M" ++ toFixed2 p.x ++ "," ++ toFixed2 p.y ++
            rest.foldr
              (fun r acc => " L" ++ toFixed2 r.x ++ "," ++ toFixed2 r.y ++ acc) " Z" := by
          rw [List.foldr_map, hfun]
  refine ⟨rfl, ?_, hcons, ?_⟩
  · intro p
    exact hcons p []
  · intro q
    exact ⟨(if (⌊q * 100 + 1 / 2⌋ : ℤ) < 0 then "-" else "")
        ++ toString ((⌊q * 100 + 1 / 2⌋ : ℤ).natAbs / 100),
      String.mk [Nat.digitChar ((⌊q * 100 + 1 / 2⌋ : ℤ).natAbs / 10 % 10),
        Nat.digitChar ((⌊q * 100 + 1 / 2⌋ : ℤ).natAbs % 10)],
      rfl, rfl⟩

/-- Witness for C4 at a concrete singleton point. -/
theorem pointsToPath_spec_witness :
    pointsToPath [⟨1, 2⟩] = "M" ++ toFixed2 1 ++ "," ++ toFixed2 2 ++ " Z" :=
  pointsToPath_spec.2.1 ⟨1, 2⟩

theorem list_find?_first {α : Type} (p : α → Bool) :
    ∀ (l : List α) (i : ℕ) (hi : i < l.length),
      p (l.get ⟨i, hi⟩) = true →
      (∀ e ∈ l.take i, p e = false) →
      l.find? p = some (l.get ⟨i, hi⟩) := by
  intro l
  induction l with
  | nil => intro i hi; exact absurd hi (Nat.not_lt_zero i)
  | cons a t ih =>
    intro i hi hp hfirst
    cases i with
    | zero => exact List.find?_cons_of_pos t hp
    | succ k =>
      have ha : p a = false := hfirst a (by simp [List.take_succ_cons])
      rw [List.find?_cons_of_neg t (by simp [ha])]
      exact ih k (Nat.lt_of_succ_lt_succ hi) hp
        (fun e he => hfirst e (by simp [List.take_succ_cons, he]))

/-- C1: matchProjectToLocation returns the first entry of PROJECT_LOCATIONS,
in table declaration order, some keyword of which occurs as a substring of
the lowercase search text built from the project name and optional
location field; when several entries match, the first-declared one is
returned, with no scoring or longest-match preference. -/
theorem matchProjectToLocation_first (project : Project) (i : ℕ)
    (hi : i < PROJECT_LOCATIONS.length)
    (hmatch : entryMatchesProject project (PROJECT_LOCATIONS.get ⟨i, hi⟩) = true)
    (hfirst : ∀ e ∈ PROJECT_LOCATIONS.take i, entryMatchesProject project e = false) :
    matchProjectToLocation project = some (PROJECT_LOCATIONS.get ⟨i, hi⟩) :=
  list_find?_first (entryMatchesProject project) PROJECT_LOCATIONS i hi hmatch hfirst

/-- Witness for C1: a project text that matches both the second and the
fifteenth table entry; the second (first-declared) entry is returned. -/
theorem matchProjectToLocation_first_witness :
    (entryMatchesProject
        ⟨"SR-400 Express Lanes in Madrid", "", "", "", none, none, none, none, none⟩
        (PROJECT_LOCATIONS.get ⟨1, by decide⟩) = true ∧
      entryMatchesProject
        ⟨"SR-400 Express Lanes in Madrid", "", "", "", none, none, none, none, none⟩
        (PROJECT_LOCATIONS.get ⟨14, by decide⟩) = true) ∧
    matchProjectToLocation
        ⟨"SR-400 Express Lanes in Madrid", "", "", "", none, none, none, none, none⟩
      = some (PROJECT_LOCATIONS.get ⟨1, by decide⟩) :=
  ⟨⟨by decide, by decide⟩,
    matchProjectToLocation_first _ 1 (by decide) (by decide) (by decide)⟩

theorem markerStep_foldl_not_mem (project : Project)
    (hnone : matchProjectToLocation project = none) :
    ∀ (ps : List Project) (acc : List ProjectMarker),
      (∀ mk ∈ acc, mk.project ≠ project) →
      ∀ mk ∈ ps.foldl markerStep acc, mk.project ≠ project := by
  intro ps
  induction ps with
  | nil => intro acc hacc; simpa using hacc
  | cons q t ih =>
    intro acc hacc
    rw [List.foldl_cons]
    apply ih
    intro mk hmk
    unfold markerStep at hmk
    cases hq : matchProjectToLocation q with
    | none =>
      simp only [hq] at hmk
      exact hacc mk hmk
    | some m =>
      simp only [hq] at hmk
      rcases List.mem_append.mp hmk with h1 | h2
      · exact hacc mk h1
      · have hmk2 := List.mem_singleton.mp h2
        intro hcontra
        rw [hmk2] at hcontra
        have hqp : q = project := hcontra
        rw [hqp, hnone] at hq
        exact Option.noConfusion hq

/-- C7: for a project none of whose keywords occur in its search text,
matchProjectToLocation returns the absent result (none, not an error), and
the projectMarkers derivation omits the project: no derived marker refers
to it. -/
theorem matchProjectToLocation_no_match (project : Project)
    (h : ∀ e ∈ PROJECT_LOCATIONS, entryMatchesProject project e = false) :
    matchProjectToLocation project = none ∧
      ∀ (projects : List Project), ∀ mk ∈ projectMarkers projects,
        mk.project ≠ project := by
  have hnone : matchProjectToLocation project = none := by
    apply List.find?_eq_none.mpr
    intro e he
    simp [h e he]
  refine ⟨hnone, ?_⟩
  intro projects
  exact markerStep_foldl_not_mem project hnone projects []
    (fun mk hmk => absurd hmk (List.not_mem_nil mk))

/-- Witness for C7: a project with no keyword overlap gets none, and the
marker list derived from a list containing it (next to a matching project)
holds no marker for it. -/
theorem matchProjectToLocation_no_match_witness :
    (∀ e ∈ PROJECT_LOCATIONS,
      entryMatchesProject
        ⟨"Golden Gate Bridge", "", "", "", none, none, none, none, none⟩ e = false) ∧
    matchProjectToLocation
        ⟨"Golden Gate Bridge", "", "", "", none, none, none, none, none⟩ = none ∧
    ∀ mk ∈ projectMarkers
        [⟨"Golden Gate Bridge", "", "", "", none, none, none, none, none⟩,
          ⟨"I-69 Widening", "", "", "", none, none, none, none, none⟩],
      mk.project ≠ ⟨"Golden Gate Bridge", "", "", "", none, none, none, none, none⟩ :=
  ⟨by decide,
    (matchProjectToLocation_no_match _ (by decide)).1,
    (matchProjectToLocation_no_match _ (by decide)).2 _⟩

theorem countStep_foldl_eq_length :
    ∀ (ms : List ProjectMarker) (accL : RegionId → List ProjectMarker)
      (accN : RegionId → ℕ),
      (∀ r, accN r = (accL r).length) →
      ∀ r, ms.foldl countStep accN r = ((ms.foldl regionStep accL) r).length := by
  intro ms
  induction ms with
  | nil => intro accL accN h r; exact h r
  | cons m t ih =>
    intro accL accN h r
    rw [List.foldl_cons, List.foldl_cons]
    apply ih
    intro s
    unfold countStep regionStep
    by_cases hs : s = m.regionId
    · subst hs
      rw [Function.update_same, Function.update_same, List.length_append, h m.regionId]
      rfl
    · rw [Function.update_noteq hs, Function.update_noteq hs]
      exact h s

/-- C10: for every project list and every region identifier, the per-region
count computed by the regionCounts reduction equals the length of the
per-region marker list computed by the projectsByRegion reduction over the
same derived markers. -/
theorem regionCounts_eq_projectsByRegion_length (projects : List Project)
    (r : RegionId) :
    regionCounts (projectMarkers projects) r
      = (projectsByRegion (projectMarkers projects) r).length := by
  unfold regionCounts projectsByRegion
  exact countStep_foldl_eq_length (projectMarkers projects) (fun _ => [])
    (fun _ => 0) (fun _ => rfl) r

end ProjectMaps
